import Mathlib

/-!
Shallow embedding of the core data pipeline of `src/streamlit_app.py`
(gdp-dashboard): the dataset loader/normalizer `get_electricity_data`
(sentinel replacement, string stripping, melt, dropna, float coercion,
pivot_table) and the derived percent-change computation of the
module-level metric loop.

Strings are modelled as Lean `String`, numeric values as `ℚ` (pandas
float64 values, exact in the ranges at issue), missing values (`pd.NA` /
`NaN`) as `Option`.  Fallible steps return `Except Unit _`, the `Unit`
error standing for the Python exception (`ValueError` from
`astype('float')`, `IndexError`/`KeyError` — both `LookupError`
subclasses — from `.iat[0]` / column selection).
-/

/-- View of an `Except` as a sum, to derive decidable equality. -/
def exceptToSum : Except ε α → ε ⊕ α
  | .error e => .inl e
  | .ok a => .inr a

instance {ε α : Type} [DecidableEq ε] [DecidableEq α] :
    DecidableEq (Except ε α) := fun a b =>
  decidable_of_iff (exceptToSum a = exceptToSum b) (by
    cases a <;> cases b <;> simp [exceptToSum])

/-- Whitespace characters removed by Python's `str.strip()`. -/
def pyIsSpace (c : Char) : Bool :=
  c = ' ' || c = '\t' || c = '\n' || c = '\r' || c = '\x0b' || c = '\x0c'

/-- Strip whitespace from both ends of a character list. -/
def stripChars (l : List Char) : List Char :=
  ((l.dropWhile pyIsSpace).reverse.dropWhile pyIsSpace).reverse

/-- Python `str.strip()` on a string (`.str.strip()` in lines 32-33). -/
def strip (s : String) : String := ⟨stripChars s.data⟩

/-- The three sentinel cell forms replaced by `pd.NA` in lines 27-29 of
`streamlit_app.py`: `"--"`, `"ie"` and the empty string. -/
def isSentinel (s : String) : Bool := s = "--" || s = "ie" || s = ""

/-- `raw_df.replace(...)` on one cell: a sentinel becomes missing
(`none` models `pd.NA`), anything else is kept. -/
def cleanCell (s : String) : Option String :=
  if isSentinel s then none else some s

/-! ### Numeric parsing (model of `astype('float')` on a cell string) -/

def isDigit (c : Char) : Bool := '0' ≤ c && c ≤ '9'

def allDigits (l : List Char) : Bool := l.all isDigit

/-- Value of a digit string, most significant first. -/
def digitsToNat (l : List Char) : Nat :=
  l.foldl (fun a c => 10 * a + (c.toNat - 48)) 0

/-- Split a character list at the first `'.'`, if any. -/
def splitDot : List Char → List Char × Option (List Char)
  | [] => ([], none)
  | c :: rest =>
    if c = '.' then ([], some rest)
    else
      let p := splitDot rest
      (c :: p.1, p.2)

/-- Parse an unsigned decimal literal (`digits`, `digits.digits`,
`digits.`, `.digits`) as an exact rational. -/
def parseUnsigned (l : List Char) : Option ℚ :=
  let p := splitDot l
  match p.2 with
  | none =>
    if p.1 ≠ [] && allDigits p.1 then some (digitsToNat p.1) else none
  | some fp =>
    if (p.1 ≠ [] || fp ≠ []) && allDigits p.1 && allDigits fp then
      some ((digitsToNat p.1 : ℚ) + (digitsToNat fp : ℚ) / (10 : ℚ) ^ fp.length)
    else none

/-- Model of Python `float(s)` for the decimal literals appearing in the
data: optional surrounding whitespace, optional sign, decimal digits
with an optional fractional part.  Strings outside this grammar fail to
parse, which models the `ValueError` raised by `astype('float')`. -/
def parseFloat (s : String) : Option ℚ :=
  match stripChars s.data with
  | '-' :: rest => (parseUnsigned rest).map (fun q => -q)
  | '+' :: rest => parseUnsigned rest
  | l => parseUnsigned l

/-! ### The raw and long tables -/

/-- One row of the raw CSV: identifiers plus one string cell per year
column (`cells` pairs each year label, already parsed as `Nat` by
`astype('int')` on line 37, with the cell text). -/
structure RawRow where
  country : String
  features : String
  region : String
  cells : List (Nat × String)
  deriving DecidableEq, Repr

/-- The raw table read by `pd.read_csv`. -/
abbrev RawTable := List RawRow

/-- One row of the melted (long-form) table of line 36: every field can
be missing after the sentinel replacement of lines 27-29, except `Year`
which comes from the column labels. -/
structure LongRow where
  country : Option String
  features : Option String
  region : Option String
  year : Nat
  value : Option String
  deriving DecidableEq, Repr

/-- Lines 27-36: sentinel replacement over the whole table, then
`str.strip` on `Country` and `Features`, then `melt` with id columns
`Country, Features, Region`, producing one long row per (row, year
column) pair. -/
def meltRow (r : RawRow) : List LongRow :=
  r.cells.map fun yc =>
    { country := (cleanCell r.country).map strip
      features := (cleanCell r.features).map strip
      region := cleanCell r.region
      year := yc.1
      value := cleanCell yc.2 }

def melt (t : RawTable) : List LongRow := t.flatMap meltRow

/-- `dropna()` (line 38) keeps a long row only when no column of it is
missing. -/
def keep (l : LongRow) : Bool :=
  l.country.isSome && l.features.isSome && l.region.isSome && l.value.isSome

/-- The long rows surviving `dropna()`. -/
def survivors (t : RawTable) : List LongRow := (melt t).filter keep

/-- A long row after `astype('float')`: all fields present and the value
numeric. -/
structure TypedRow where
  country : String
  features : String
  region : String
  year : Nat
  value : ℚ
  deriving DecidableEq, Repr

/-- Coerce one surviving long row; `none` models the `ValueError` of
`astype('float')` when the cell text is not numeric. -/
def typeRow (l : LongRow) : Option TypedRow :=
  match l.country, l.features, l.region, l.value with
  | some c, some f, some r, some v =>
    (parseFloat v).map fun q => ⟨c, f, r, l.year, q⟩
  | _, _, _, _ => none

/-- Line 39, `astype('float')` over the whole column: the first
unparsable value aborts the load with an exception. -/
def coerce : List LongRow → Except Unit (List TypedRow)
  | [] => .ok []
  | l :: rest =>
    match typeRow l with
    | none => .error ()
    | some tr => (coerce rest).map fun trs => tr :: trs

/-! ### The pivoted (normalized) table -/

/-- The normalized table, represented by the typed long rows it was
pivoted from; the pivot output (lines 42-43) is fully determined by
them: its feature columns, its `(Country, Region, Year)` index and its
cell values (mean-aggregated, the `pivot_table` default). -/
structure NormTable where
  rows : List TypedRow
  deriving DecidableEq, Repr

/-- The feature columns of the pivoted table: the distinct `Features`
values present after `dropna`. -/
def NormTable.feats (N : NormTable) : List String :=
  (N.rows.map TypedRow.features).dedup

/-- The `(Country, Region, Year)` index of the pivoted table: the
distinct key triples, each appearing once (`pivot_table` groups by the
index). -/
def NormTable.keys (N : NormTable) : List (String × String × Nat) :=
  (N.rows.map fun r => (r.country, r.region, r.year)).dedup

/-- The pivoted cell at `(country, region, year)` for column `feature`:
`pivot_table`'s default `mean` aggregation of the matching values, `NaN`
(modelled `none`) when no surviving long row matches. -/
def NormTable.cell (N : NormTable) (c r : String) (y : Nat) (f : String) :
    Option ℚ :=
  let vs := (N.rows.filter fun t =>
    t.country = c && t.region = r && t.year = y && t.features = f).map
    TypedRow.value
  if vs.isEmpty then none else some (vs.sum / vs.length)

/-- `get_electricity_data` (lines 14-45): the whole load/normalize
pipeline.  `Except.error` models the exception that aborts the load
when a non-missing cell is not numeric. -/
def get_electricity_data (t : RawTable) : Except Unit NormTable :=
  (coerce (survivors t)).map fun trs => ⟨trs⟩

/-! ### Derived-metric calculator (module-level loop, lines 99-161)

The cell values handed to the loop are numpy `float64` scalars; besides
finite values the computation can produce `inf`/`-inf`/`nan` (numpy
division by zero warns and yields an IEEE special value, it does not
raise).  `EFloat` models that value space. -/

inductive EFloat where
  | fin (q : ℚ)
  | inf
  | ninf
  | nan
  deriving DecidableEq, Repr

/-- IEEE subtraction for the shapes arising in the loop (finite minus
finite, NaN minus finite). -/
def EFloat.sub : EFloat → EFloat → EFloat
  | .fin a, .fin b => .fin (a - b)
  | .nan, _ => .nan
  | _, .nan => .nan
  | .inf, .fin _ => .inf
  | .ninf, .fin _ => .ninf
  | .fin _, .inf => .ninf
  | .fin _, .ninf => .inf
  | .inf, .ninf => .inf
  | .ninf, .inf => .ninf
  | .inf, .inf => .nan
  | .ninf, .ninf => .nan

/-- IEEE division by a finite float (`ℚ` has no signed zero; the divisor
zero is taken as `+0.0`, which is what the data can contain). -/
def EFloat.divFin : EFloat → ℚ → EFloat
  | .fin a, b =>
    if b = 0 then (if a > 0 then .inf else if a < 0 then .ninf else .nan)
    else .fin (a / b)
  | .nan, _ => .nan
  | .inf, b => if b < 0 then .ninf else .inf
  | .ninf, b => if b < 0 then .inf else .ninf

/-- IEEE multiplication by the positive constant 100. -/
def EFloat.mul100 : EFloat → EFloat
  | .fin a => .fin (100 * a)
  | .inf => .inf
  | .ninf => .ninf
  | .nan => .nan

/-- The growth figure shown on a summary card: either the distinguished
`'n/a'` string or a percentage value (lines 149-154). -/
inductive Growth where
  | na
  | pct (v : EFloat)
  deriving DecidableEq, Repr

/-- A pandas cell read back from the pivoted frame: `none` models `NaN`.
Lines 149-154: `math.isnan(first_data)` selects `'n/a'`; otherwise
`100*(last_data-first_data)/first_data` is computed with numpy floats
(a `NaN` `last_data` flows through the arithmetic as NaN). -/
def computeGrowth (first last : Option ℚ) : Growth :=
  match first with
  | none => .na
  | some f =>
    let l : EFloat := match last with
      | none => .nan
      | some q => .fin q
    .pct (((l.sub (.fin f)).divFin f).mul100)

/-- Line 146 (and 147): `first_year[first_year['Country'] == country][feature].iat[0]`
against the frame filtered to `selected_countries` and the year range
`[lo, hi]` (lines 99-106).  Selecting a column absent from the frame
raises `KeyError`; `.iat[0]` on an empty selection raises `IndexError`
(both are `LookupError`s, modelled by `Except.error ()`).  Otherwise the
cell of the first matching row is returned, `NaN` as `none`. -/
def lookupCell (N : NormTable) (lo hi : Nat) (c : String) (y : Nat)
    (f : String) : Except Unit (Option ℚ) :=
  if f ∈ N.feats then
    match (N.keys.filter fun k =>
        lo ≤ k.2.2 && k.2.2 ≤ hi && k.1 = c && k.2.2 = y).head? with
    | none => .error ()
    | some k => .ok (N.cell k.1 k.2.1 k.2.2 f)
  else .error ()

/-- One summary card (`st.metric`, lines 156-161): the displayed
last-period value and the growth delta. -/
structure MetricCard where
  last : Option ℚ
  growth : Growth
  deriving DecidableEq, Repr

/-- Lines 146-161 for one (country, feature) pair: both lookups (either
may raise a `LookupError`), then the growth computation. -/
def computeCard (N : NormTable) (lo hi : Nat) (c f : String) :
    Except Unit MetricCard := do
  let first ← lookupCell N lo hi c lo f
  let last ← lookupCell N lo hi c hi f
  pure ⟨last, computeGrowth first last⟩

/-- The (feature, country) pairs visited by the nested loops of lines
113 and 142, in visit order (features outer, countries inner). -/
def loopPairs (features countries : List String) : List (String × String) :=
  features.flatMap fun f => countries.map fun c => (f, c)

/-- The uncaught-exception semantics of the metric loops: cards already
rendered stay rendered, and the first `LookupError` aborts the whole
script run (there is no `try`/`except` in lines 142-161), so no later
pair is processed.  Returns the rendered cards and whether the run
aborted. -/
def runPairs (N : NormTable) (lo hi : Nat) :
    List (String × String) → List (String × String × MetricCard) × Bool
  | [] => ([], false)
  | p :: rest =>
    match computeCard N lo hi p.2 p.1 with
    | .error _ => ([], true)
    | .ok card =>
      let r := runPairs N lo hi rest
      ((p.1, p.2, card) :: r.1, r.2)

/-- The whole metric section for a selection: every feature, every
selected country. -/
def runBatch (N : NormTable) (lo hi : Nat)
    (features countries : List String) :
    List (String × String × MetricCard) × Bool :=
  runPairs N lo hi (loopPairs features countries)

/-! ### Concrete tables used by witnesses and counterexamples -/

/-- A small raw table in the shape of the CSV: France with full data,
Chad with a sentinel first-period cell, Chad imports, and a country
whose first-period value is exactly zero. -/
def wTable : RawTable :=
  [⟨"France", " net consumption ", "Europe", [(2000, "100"), (2010, "150")]⟩,
   ⟨"Chad", "net consumption", "Africa", [(2000, "--"), (2010, "7.5")]⟩,
   ⟨"Chad", "imports", "Africa", [(2000, "3"), (2010, "4")]⟩,
   ⟨"Oz", "net consumption", "Oceania", [(2000, "0"), (2010, "5")]⟩]

/-- The normalized table produced from `wTable`. -/
def wNorm : NormTable :=
  ⟨[⟨"France", "net consumption", "Europe", 2000, 100⟩,
    ⟨"France", "net consumption", "Europe", 2010, 150⟩,
    ⟨"Chad", "net consumption", "Africa", 2010, 15/2⟩,
    ⟨"Chad", "imports", "Africa", 2000, 3⟩,
    ⟨"Chad", "imports", "Africa", 2010, 4⟩,
    ⟨"Oz", "net consumption", "Oceania", 2000, 0⟩,
    ⟨"Oz", "net consumption", "Oceania", 2010, 5⟩]⟩

/-- A normalized table in which Chad has no year-2000 row at all, so
the first-period lookup for Chad raises. -/
def cNorm : NormTable :=
  ⟨[⟨"France", "net consumption", "Europe", 2000, 100⟩,
    ⟨"France", "net consumption", "Europe", 2010, 150⟩,
    ⟨"Chad", "net consumption", "Africa", 2010, 7⟩]⟩

/-- Two raw rows that trim to the same `(Country, Features, Region)`
triple, one holding a sentinel where the other holds a number. -/
def tDup : RawTable :=
  [⟨"France", "net consumption", "Europe", [(2000, "--")]⟩,
   ⟨" France", "net consumption", "Europe", [(2000, "5")]⟩]

/-- A raw row whose `Region` cell is the dash sentinel but whose year
cell is a plain number. -/
def tDrop : RawTable := [⟨"France", "net consumption", "--", [(2000, "5")]⟩]

/-- Raw table whose only cell is non-missing but not numeric. -/
def tPE : RawTable := [⟨"France", "nc", "Europe", [(2000, "abc")]⟩]

/-- Raw table whose unparsable cell sits in a row that the any-column
`dropna` removes (sentinel `Region`) before `astype('float')` runs,
next to an ordinary valid row. -/
def tPE2 : RawTable :=
  [⟨"France", "nc", "--", [(2000, "abc")]⟩,
   ⟨"Spain", "nc", "Europe", [(2000, "3")]⟩]

/-! ### Decimal printing and re-widening (claim C9)

Re-widening a normalized table back to the one-column-per-year raw
format is not part of the source; it is the hypothetical inverse
reshape that the round-trip property quantifies over.  The pivoted cell
values (float64 in the code, exact `ℚ` here) are printed back to the
decimal literals the loader parses; a null cell becomes the dash
sentinel. -/

/-- The character of a single decimal digit. -/
def digitChar : Nat → Char
  | 0 => '0'
  | 1 => '1'
  | 2 => '2'
  | 3 => '3'
  | 4 => '4'
  | 5 => '5'
  | 6 => '6'
  | 7 => '7'
  | 8 => '8'
  | _ => '9'

/-- Decimal digits of `n`, most significant first. -/
def natDigits (n : Nat) : List Char :=
  if _h : n < 10 then [digitChar n]
  else natDigits (n / 10) ++ [digitChar (n % 10)]
decreasing_by exact Nat.div_lt_self (by omega) (by omega)

/-- Digits of `r` left-padded with zeros to (at least) width `k`. -/
def padDigits (k r : Nat) : List Char :=
  List.replicate (k - (natDigits r).length) '0' ++ natDigits r

/-- The least exponent `k ≤ d` with `d ∣ 10 ^ k` (0 when none exists). -/
def decExp (d : Nat) : Nat :=
  (((List.range (d + 1)).find? fun k => decide (d ∣ 10 ^ k)).getD 0)

/-- Digits (with decimal point when needed) of the fraction `n / d`,
for `d` dividing a power of ten. -/
def printDecChars (n d : Nat) : List Char :=
  let k := decExp d
  let m := n * (10 ^ k / d)
  if k = 0 then natDigits m
  else natDigits (m / 10 ^ k) ++ '.' :: padDigits k (m % 10 ^ k)

/-- Print a rational as the decimal literal the loader parses back. -/
def printDec (q : ℚ) : String :=
  if q.num < 0 then ⟨'-' :: printDecChars q.num.natAbs q.den⟩
  else ⟨printDecChars q.num.natAbs q.den⟩

/-- Exactly representable as a finite decimal (true of every binary
float printed exactly). -/
def isDec (q : ℚ) : Bool := decide (q.den ∣ 10 ^ q.den)

/-- Re-widen the pivoted table to the raw one-column-per-year format:
one raw row per distinct `(Country, Features, Region)` triple, one cell
per observed year, each holding the printed pivot cell or the dash
sentinel for a null cell. -/
def widen (N : NormTable) : RawTable :=
  ((N.rows.map fun tr => (tr.country, tr.features, tr.region)).dedup).map
    fun tri =>
      { country := tri.1
        features := tri.2.1
        region := tri.2.2
        cells := ((N.rows.map TypedRow.year).dedup).map fun y =>
          (y, match N.cell tri.1 tri.2.2 y tri.2.1 with
              | some q => printDec q
              | none => "--") }

/-- The typed rows obtained by re-normalizing `widen N`: one surviving
cell per (triple, year) with a non-null pivot value. -/
def widenRows (N : NormTable) : List TypedRow :=
  ((N.rows.map fun tr => (tr.country, tr.features, tr.region)).dedup).flatMap
    fun tri =>
      ((N.rows.map TypedRow.year).dedup).flatMap fun y =>
        ((N.cell tri.1 tri.2.2 y tri.2.1).map fun q =>
          (⟨tri.1, tri.2.1, tri.2.2, y, q⟩ : TypedRow)).toList

/-- Two pivoted tables are the same table: same feature columns, same
`(Country, Region, Year)` index, same cell at every position. -/
def NormEquiv (A B : NormTable) : Prop :=
  (∀ f, f ∈ A.feats ↔ f ∈ B.feats) ∧
  (∀ k, k ∈ A.keys ↔ k ∈ B.keys) ∧
  (∀ c r y f, A.cell c r y f = B.cell c r y f)

/-- A raw table whose country cell strips to the dash sentinel only
after sentinel replacement has run. -/
def tWiden : RawTable := [⟨" -- ", "f", "R", [(2000, "5")]⟩]

/-! ### Claims about the percent-change computation -/

/-- C1: for any table, selection and (country, feature) pair whose
looked-up first value is non-null and nonzero (and whose last-row
lookup also finds a non-null value, as the claim's formula
presupposes), the rendered percent change is
`100 * (last_value - first_value) / first_value`. -/
theorem percent_change_formula (N : NormTable) (lo hi : Nat) (c f : String)
    (fv lv : ℚ)
    (h1 : lookupCell N lo hi c lo f = .ok (some fv)) (hf : fv ≠ 0)
    (h2 : lookupCell N lo hi c hi f = .ok (some lv)) :
    computeCard N lo hi c f =
      .ok ⟨some lv, .pct (.fin (100 * (lv - fv) / fv))⟩ := by
  simp only [computeCard, bind, Except.bind, h1, h2, pure, Except.pure,
    computeGrowth, EFloat.sub, EFloat.divFin, if_neg hf, EFloat.mul100,
    mul_div_assoc]

set_option maxRecDepth 40000 in
/-- C1 witness: the spec's instance `first_value=100, last_value=150 ⇒
percent_change = 50.0`, on the normalized form of a concrete raw
table. -/
theorem percent_change_formula_witness :
    get_electricity_data wTable = .ok wNorm ∧
    lookupCell wNorm 2000 2010 "France" 2000 "net consumption" =
      .ok (some 100) ∧
    lookupCell wNorm 2000 2010 "France" 2010 "net consumption" =
      .ok (some 150) ∧
    computeCard wNorm 2000 2010 "France" "net consumption" =
      .ok ⟨some 150, .pct (.fin 50)⟩ := by
  refine ⟨by with_unfolding_all decide, by with_unfolding_all decide,
    by with_unfolding_all decide, ?_⟩
  have h := percent_change_formula wNorm 2000 2010 "France" "net consumption"
    100 150 (by with_unfolding_all decide) (by norm_num)
    (by with_unfolding_all decide)
  have e : (100 : ℚ) * (150 - 100) / 100 = 50 := by norm_num
  rw [e] at h
  exact h

/-- C2: when the looked-up first value is null (`NaN` in the frame, a
present row with a missing feature value), the computation completes
without an exception and renders the distinguished `'n/a'` growth,
which is a different constructor from every numeric percentage (in
particular from zero). -/
theorem percent_change_na (N : NormTable) (lo hi : Nat) (c f : String)
    (lopt : Option ℚ)
    (h1 : lookupCell N lo hi c lo f = .ok none)
    (h2 : lookupCell N lo hi c hi f = .ok lopt) :
    computeCard N lo hi c f = .ok ⟨lopt, .na⟩ ∧
      ∀ v : EFloat, (Growth.na : Growth) ≠ .pct v := by
  constructor
  · simp only [computeCard, bind, Except.bind, h1, h2, pure, Except.pure,
      computeGrowth]
  · intro v h
    cases h

/-- C2 witness: Chad's first-period cell is the sentinel `"--"`, so its
looked-up first value is null and the card shows `'n/a'`. -/
theorem percent_change_na_witness :
    lookupCell wNorm 2000 2010 "Chad" 2000 "net consumption" = .ok none ∧
    lookupCell wNorm 2000 2010 "Chad" 2010 "net consumption" =
      .ok (some (15/2)) ∧
    computeCard wNorm 2000 2010 "Chad" "net consumption" =
      .ok ⟨some (15/2), .na⟩ := by
  refine ⟨by with_unfolding_all decide, by with_unfolding_all decide, ?_⟩
  exact (percent_change_na wNorm 2000 2010 "Chad" "net consumption"
    (some (15/2)) (by with_unfolding_all decide)
    (by with_unfolding_all decide)).1

/-- C10: a present, non-null first value of exactly zero is not caught
by the `math.isnan` guard: the division is performed with numpy floats,
which yields an IEEE special value instead of raising
(`RuntimeWarning` only) — an infinity when the last value is nonzero,
`NaN` when the last value is also zero — and it is rendered through the
percentage branch, not as `'n/a'` and not as an error. -/
theorem percent_change_zero_division (N : NormTable) (lo hi : Nat)
    (c f : String) (lv : ℚ)
    (h1 : lookupCell N lo hi c lo f = .ok (some 0))
    (h2 : lookupCell N lo hi c hi f = .ok (some lv)) :
    computeCard N lo hi c f =
      .ok ⟨some lv,
        .pct (if 0 < lv then .inf else if lv < 0 then .ninf else .nan)⟩ := by
  simp only [computeCard, bind, Except.bind, h1, h2, pure, Except.pure,
    computeGrowth, EFloat.sub, EFloat.divFin, if_pos rfl, sub_zero,
    EFloat.mul100]
  by_cases hp : 0 < lv
  · simp [hp]
  · by_cases hn : lv < 0 <;> simp [hp, hn, EFloat.mul100]

/-- C10 witness: a zero first value and last value 5 produce a card with
growth `+inf`, not `'n/a'` and not an exception. -/
theorem percent_change_zero_division_witness :
    lookupCell wNorm 2000 2010 "Oz" 2000 "net consumption" =
      .ok (some 0) ∧
    computeCard wNorm 2000 2010 "Oz" "net consumption" =
      .ok ⟨some 5, .pct .inf⟩ := by
  refine ⟨by with_unfolding_all decide, ?_⟩
  have h := percent_change_zero_division wNorm 2000 2010 "Oz"
    "net consumption" 5 (by with_unfolding_all decide)
    (by with_unfolding_all decide)
  simpa using h

/-- Unfolding lemma for the loop semantics: the rendered cards are those
of the longest error-free prefix of the visit order, and any failing
pair aborts the run. -/
theorem runPairs_spec (N : NormTable) (lo hi : Nat)
    (ps : List (String × String)) :
    runPairs N lo hi ps =
      ((ps.takeWhile fun p => (computeCard N lo hi p.2 p.1).isOk).filterMap
         fun p => (computeCard N lo hi p.2 p.1).toOption.map
           fun card => (p.1, p.2, card),
       ps.any fun p => !(computeCard N lo hi p.2 p.1).isOk) := by
  induction ps with
  | nil => rfl
  | cons p rest ih =>
    cases h : computeCard N lo hi p.2 p.1 with
    | error e =>
      have ht : List.takeWhile
          (fun q => (computeCard N lo hi q.2 q.1).isOk) (p :: rest) = [] := by
        rw [List.takeWhile_cons]
        simp only [h]
        rfl
      have ha : List.any (p :: rest)
          (fun q => !(computeCard N lo hi q.2 q.1).isOk) = true := by
        rw [List.any_cons]
        simp only [h]
        rfl
      simp only [runPairs, h, ht, ha, List.filterMap_nil]
    | ok card =>
      have ht : List.takeWhile
          (fun q => (computeCard N lo hi q.2 q.1).isOk) (p :: rest) =
          p :: List.takeWhile
            (fun q => (computeCard N lo hi q.2 q.1).isOk) rest := by
        rw [List.takeWhile_cons]
        simp only [h]
        rfl
      have ha : List.any (p :: rest)
          (fun q => !(computeCard N lo hi q.2 q.1).isOk) =
          List.any rest (fun q => !(computeCard N lo hi q.2 q.1).isOk) := by
        rw [List.any_cons]
        simp only [h]
        rfl
      simp only [runPairs, h, ht, ha, ih, List.filterMap_cons,
        Except.toOption, Option.map_some]
      rfl

/-- C3 counterexample: with countries `[Chad, France]`, Chad's failing
lookup aborts the whole loop (there is no `try`/`except` in lines
142-161), so France's card — which on its own would compute fine — is
never rendered: the batch output is empty and aborted. -/
theorem batch_abort_counterexample :
    (∃ card, computeCard cNorm 2000 2010 "France" "net consumption" =
      .ok card) ∧
    runBatch cNorm 2000 2010 ["net consumption"] ["Chad", "France"] =
      ([], true) := by
  exact ⟨⟨⟨some 150, .pct (.fin 50)⟩, by with_unfolding_all decide⟩,
    by with_unfolding_all decide⟩

/-- C3 amended: a lookup error is NOT scoped to its (country, feature)
pair — the uncaught exception aborts the batch at that point: exactly
the pairs strictly before the first failing pair are computed and
rendered, every pair from the first failure on (the failing pair's
siblings included) is not. -/
theorem run_batch_abort_semantics (N : NormTable) (lo hi : Nat)
    (features countries : List String) :
    runBatch N lo hi features countries =
      (((loopPairs features countries).takeWhile
          fun p => (computeCard N lo hi p.2 p.1).isOk).filterMap
            fun p => (computeCard N lo hi p.2 p.1).toOption.map
              fun card => (p.1, p.2, card),
       (loopPairs features countries).any
         fun p => !(computeCard N lo hi p.2 p.1).isOk) :=
  runPairs_spec N lo hi (loopPairs features countries)

/-- Helper for C6: one untypable surviving row makes the whole coercion
fail. -/
theorem coerce_error_of_mem (ls : List LongRow) (l : LongRow)
    (hl : l ∈ ls) (ht : typeRow l = none) : coerce ls = .error () := by
  induction ls with
  | nil => cases hl
  | cons a rest ih =>
    rcases List.mem_cons.mp hl with rfl | hmem
    · simp [coerce, ht]
    · unfold coerce
      cases h : typeRow a
      · rfl
      · rw [ih hmem]
        rfl

/-- C6 amended: if any long row *surviving the any-column `dropna`*
(all columns non-missing after sentinel cleanup) has a value that does
not parse as a number, `astype('float')` raises and the whole load
aborts: `get_electricity_data` returns the error outcome and no
normalized table exists, partial or otherwise — the surviving
unparsable value is never coerced to missing.  (The restriction to
surviving rows is forced: as the counterexample shows, an unparsable
cell in a row that `dropna` removes is silently discarded without
aborting.) -/
theorem parse_error_aborts (t : RawTable)
    (h : ∃ l ∈ survivors t, ∃ v, l.value = some v ∧ parseFloat v = none) :
    get_electricity_data t = .error () := by
  obtain ⟨l, hmem, v, hval, hparse⟩ := h
  have hk : keep l = true := (List.mem_filter.mp hmem).2
  have ht : typeRow l = none := by
    unfold keep at hk
    simp only [Bool.and_eq_true, Option.isSome_iff_exists] at hk
    obtain ⟨⟨⟨⟨c, hc⟩, f, hf⟩, r, hr⟩, -⟩ := hk
    unfold typeRow
    rw [hc, hf, hr, hval]
    dsimp only
    rw [hparse]
    rfl
  unfold get_electricity_data
  rw [coerce_error_of_mem (survivors t) l hmem ht]
  rfl

set_option maxRecDepth 40000 in
/-- C6 witness: the cell `"abc"` survives cleanup, fails float
coercion, and the load aborts with no table. -/
theorem parse_error_aborts_witness :
    (∃ l ∈ survivors tPE, ∃ v, l.value = some v ∧ parseFloat v = none) ∧
    get_electricity_data tPE = .error () := by
  refine ⟨⟨⟨some "France", some "nc", some "Europe", 2000, some "abc"⟩,
    by with_unfolding_all decide, "abc", by with_unfolding_all decide,
    by with_unfolding_all decide⟩, ?_⟩
  exact parse_error_aborts tPE
    ⟨⟨some "France", some "nc", some "Europe", 2000, some "abc"⟩,
      by with_unfolding_all decide, "abc", by with_unfolding_all decide,
      by with_unfolding_all decide⟩

set_option maxRecDepth 40000 in
/-- C6 counterexample: the raw table `tPE2` contains the non-missing,
unparsable cell `"abc"`, yet the load does not abort: the offending
row's `Region` is the dash sentinel, so line 38's any-column `dropna`
silently drops the row before `astype('float')` ever sees `"abc"`, and
`get_electricity_data` returns a normalized table holding the other
row. -/
theorem parse_error_counterexample :
    cleanCell "abc" = some "abc" ∧ parseFloat "abc" = none ∧
    (∃ ρ ∈ tPE2, (2000, "abc") ∈ ρ.cells) ∧
    get_electricity_data tPE2 =
      .ok ⟨[⟨"Spain", "nc", "Europe", 2000, 3⟩]⟩ := by
  refine ⟨by with_unfolding_all decide, by with_unfolding_all decide,
    ⟨⟨"France", "nc", "--", [(2000, "abc")]⟩, by with_unfolding_all decide,
      by with_unfolding_all decide⟩, by with_unfolding_all decide⟩

/-- C8: `pivot_table` groups by the `(Country, Region, Year)` index, so
no two rows of any normalized output share that triple. -/
theorem norm_keys_unique (t : RawTable) (N : NormTable)
    (_h : get_electricity_data t = .ok N) : N.keys.Nodup :=
  List.nodup_dedup _

set_option maxRecDepth 40000 in
/-- C8 witness: the concrete table's normalized keys are pairwise
distinct. -/
theorem norm_keys_unique_witness :
    get_electricity_data wTable = .ok wNorm ∧ wNorm.keys.Nodup := by
  have h : get_electricity_data wTable = .ok wNorm := by
    with_unfolding_all decide
  exact ⟨h, norm_keys_unique wTable wNorm h⟩

/-! ### Inversion helpers for the load pipeline -/

/-- A successful `cleanCell` returns the cell unchanged, and only for
non-sentinel cells. -/
theorem cleanCell_eq_some {s x : String} (h : cleanCell s = some x) :
    x = s ∧ isSentinel s = false := by
  unfold cleanCell at h
  by_cases hs : isSentinel s = true
  · rw [if_pos hs] at h
    cases h
  · rw [if_neg hs] at h
    cases h
    exact ⟨rfl, Bool.not_eq_true _ |>.mp hs⟩

/-- Inversion of a successful `typeRow`. -/
theorem typeRow_eq_some {l : LongRow} {tr : TypedRow}
    (h : typeRow l = some tr) :
    l.country = some tr.country ∧ l.features = some tr.features ∧
    l.region = some tr.region ∧ l.year = tr.year ∧
    ∃ v, l.value = some v ∧ parseFloat v = some tr.value := by
  unfold typeRow at h
  cases hc : l.country with
  | none => rw [hc] at h; cases h
  | some c =>
  cases hf : l.features with
  | none => rw [hc, hf] at h; cases h
  | some f =>
  cases hr : l.region with
  | none => rw [hc, hf, hr] at h; cases h
  | some r =>
  cases hv : l.value with
  | none => rw [hc, hf, hr, hv] at h; cases h
  | some v =>
    rw [hc, hf, hr, hv] at h
    dsimp only at h
    cases hp : parseFloat v with
    | none => rw [hp] at h; cases h
    | some q =>
      rw [hp] at h
      cases h
      exact ⟨rfl, rfl, rfl, rfl, v, rfl, hp⟩

/-- Inversion of a successful coercion: every typed row comes from one
of the surviving long rows. -/
theorem coerce_ok_mem {ls : List LongRow} {trs : List TypedRow}
    (h : coerce ls = .ok trs) :
    ∀ tr ∈ trs, ∃ l ∈ ls, typeRow l = some tr := by
  induction ls generalizing trs with
  | nil =>
    cases h
    intro tr htr
    cases htr
  | cons a rest ih =>
    unfold coerce at h
    cases ha : typeRow a with
    | none => rw [ha] at h; cases h
    | some tr₀ =>
      rw [ha] at h
      cases hrest : coerce rest with
      | error e => rw [hrest] at h; cases h
      | ok trs₀ =>
        rw [hrest] at h
        cases h
        intro tr htr
        rcases List.mem_cons.mp htr with rfl | hmem
        · exact ⟨a, List.mem_cons_self _ _, ha⟩
        · obtain ⟨l, hl, hlt⟩ := ih hrest tr hmem
          exact ⟨l, List.mem_cons_of_mem _ hl, hlt⟩

/-- Inversion of melt membership: every long row arises from a raw row
and one of its year cells. -/
theorem mem_melt {t : RawTable} {l : LongRow} (h : l ∈ melt t) :
    ∃ r ∈ t, ∃ yc ∈ r.cells,
      l = { country := (cleanCell r.country).map strip
            features := (cleanCell r.features).map strip
            region := cleanCell r.region
            year := yc.1
            value := cleanCell yc.2 } := by
  obtain ⟨r, hr, hl⟩ := List.mem_flatMap.mp h
  obtain ⟨yc, hyc, he⟩ := List.mem_map.mp hl
  exact ⟨r, hr, yc, hyc, he.symm⟩

/-! ### C5: sentinel collapse -/

set_option maxRecDepth 40000 in
/-- C5 counterexample: the first row's year-2000 cell is the dash
sentinel, yet the normalized value at its (country, feature, year) is
the number 5: `pivot_table`'s mean aggregation lets the duplicate
trimmed key's numeric cell fill the slot, so a sentinel cell's
normalized value is not always absent. -/
theorem sentinel_collapse_counterexample :
    isSentinel "--" = true ∧
    (∃ ρ ∈ tDup, (2000, "--") ∈ ρ.cells ∧ strip ρ.country = "France" ∧
      strip ρ.features = "net consumption" ∧ ρ.region = "Europe") ∧
    ∃ N, get_electricity_data tDup = .ok N ∧
      N.cell "France" "Europe" 2000 "net consumption" = some 5 := by
  refine ⟨by with_unfolding_all decide,
    ⟨⟨"France", "net consumption", "Europe", [(2000, "--")]⟩,
      by with_unfolding_all decide, by with_unfolding_all decide,
      by with_unfolding_all decide, by with_unfolding_all decide,
      by with_unfolding_all decide⟩,
    ⟨[⟨"France", "net consumption", "Europe", 2000, 5⟩]⟩,
    by with_unfolding_all decide, by with_unfolding_all decide⟩

/-- C5 amended: provided no two raw rows trim to the same
`(Country, Features, Region)` triple (the raw format's one-row-per-key
constraint, stated after trimming) and each row has one cell per year,
every cell exactly matching a sentinel form — scanned anywhere in the
table — leaves the corresponding (country, feature, year) slot of the
normalized output missing; no numeric value is produced from it. -/
theorem sentinel_collapse (t : RawTable) (ρ : RawRow) (y : Nat)
    (s : String) (N : NormTable)
    (hmem : ρ ∈ t)
    (hcell : (y, s) ∈ ρ.cells)
    (hsent : isSentinel s = true)
    (hyears : (ρ.cells.map Prod.fst).Nodup)
    (htrip : (t.map fun r =>
      (strip r.country, strip r.features, r.region)).Nodup)
    (hN : get_electricity_data t = .ok N) :
    N.cell (strip ρ.country) ρ.region y (strip ρ.features) = none := by
  have hco : coerce (survivors t) = .ok N.rows := by
    unfold get_electricity_data at hN
    cases hc : coerce (survivors t) with
    | error e => rw [hc] at hN; cases hN
    | ok trs => rw [hc] at hN; cases hN; rfl
  unfold NormTable.cell
  have hempty : (N.rows.filter fun tr =>
      tr.country = strip ρ.country && tr.region = ρ.region &&
      tr.year = y && tr.features = strip ρ.features) = [] := by
    rw [List.filter_eq_nil_iff]
    intro tr htr hmatch
    simp only [Bool.and_eq_true, decide_eq_true_eq] at hmatch
    obtain ⟨⟨⟨hc, hreg⟩, hy⟩, hf⟩ := hmatch
    obtain ⟨l, hls, hlt⟩ := coerce_ok_mem hco tr htr
    have hkeep : keep l = true := (List.mem_filter.mp hls).2
    have hmelt : l ∈ melt t := (List.mem_filter.mp hls).1
    obtain ⟨r, hrt, yc, hyc, hle⟩ := mem_melt hmelt
    obtain ⟨hlc, hlf, hlr, hly, v, hlv, hpv⟩ := typeRow_eq_some hlt
    -- identify the raw row r with ρ through the trimmed triple
    rw [hle] at hlc hlf hlr hly hlv
    dsimp only at hlc hlf hlr hly hlv
    obtain ⟨c₀, hc₀, hc₀e⟩ := Option.map_eq_some'.mp hlc
    obtain ⟨f₀, hf₀, hf₀e⟩ := Option.map_eq_some'.mp hlf
    obtain ⟨hc₀s, -⟩ := cleanCell_eq_some hc₀
    obtain ⟨hf₀s, -⟩ := cleanCell_eq_some hf₀
    obtain ⟨hrs, -⟩ := cleanCell_eq_some hlr
    have hrc : strip r.country = strip ρ.country := by
      rw [hc₀s] at hc₀e
      rw [hc₀e, hc]
    have hrf : strip r.features = strip ρ.features := by
      rw [hf₀s] at hf₀e
      rw [hf₀e, hf]
    have hrr : r.region = ρ.region := by
      rw [← hrs, hreg]
    have hreq : r = ρ :=
      List.inj_on_of_nodup_map htrip hrt hmem
        (by rw [hrc, hrf, hrr])
    -- the sentinel cell and the surviving cell share the year y
    rw [hreq] at hyc
    have hyy : yc.1 = y := by rw [hly, hy]
    have hyc' : (y, yc.2) ∈ ρ.cells := by
      rw [← hyy]
      simpa using hyc
    have hpair : ((y, s) : Nat × String) = (y, yc.2) :=
      List.inj_on_of_nodup_map hyears hcell hyc' rfl
    have hsv : s = yc.2 := congrArg Prod.snd hpair
    obtain ⟨-, hnos⟩ := cleanCell_eq_some hlv
    rw [← hsv] at hnos
    rw [hsent] at hnos
    cases hnos
  rw [hempty]
  rfl

set_option maxRecDepth 40000 in
/-- C5 witness: Chad's dash cell at year 2000 in the concrete table
leaves the (Chad, net consumption, 2000) slot of the normalized output
missing. -/
theorem sentinel_collapse_witness :
    (⟨"Chad", "net consumption", "Africa", [(2000, "--"), (2010, "7.5")]⟩ :
      RawRow) ∈ wTable ∧
    isSentinel "--" = true ∧
    get_electricity_data wTable = .ok wNorm ∧
    wNorm.cell "Chad" "Africa" 2000 "net consumption" = none := by
  refine ⟨by with_unfolding_all decide, by with_unfolding_all decide,
    by with_unfolding_all decide, ?_⟩
  have h := sentinel_collapse wTable
    ⟨"Chad", "net consumption", "Africa", [(2000, "--"), (2010, "7.5")]⟩
    2000 "--" wNorm (by with_unfolding_all decide)
    (by with_unfolding_all decide) (by with_unfolding_all decide)
    (by with_unfolding_all decide) (by with_unfolding_all decide)
    (by with_unfolding_all decide)
  have e1 : strip "Chad" = "Chad" := by with_unfolding_all decide
  have e2 : strip "net consumption" = "net consumption" := by
    with_unfolding_all decide
  rw [e1, e2] at h
  exact h

/-! ### C7: which long rows does `dropna` drop? -/

set_option maxRecDepth 40000 in
/-- C7 counterexample: `dropna()` (line 38) drops rows with a missing
value in ANY column, not only in `Value`: the single melted row of
`tDrop` has the non-missing value `"5"`, yet it is dropped (its
sentinel `Region` became `NA`), and the normalized output is empty. -/
theorem dropna_counterexample :
    (∃ l : LongRow, melt tDrop = [l] ∧ l.value = some "5") ∧
    survivors tDrop = [] ∧
    get_electricity_data tDrop = .ok ⟨[]⟩ := by
  refine ⟨⟨⟨some "France", some "net consumption", none, 2000, some "5"⟩,
    by with_unfolding_all decide, by with_unfolding_all decide⟩,
    by with_unfolding_all decide, by with_unfolding_all decide⟩

/-- C7 amended: `dropna` keeps exactly the long rows with no missing
column; in particular, among rows whose identifier columns are all
present, exactly those with a non-missing `Value` are retained; and
every `(country, region, year)` key of the normalized output has at
least one non-null feature cell, so an all-missing combination is
entirely absent rather than an all-null row. -/
theorem dropna_semantics (t : RawTable) :
    (∀ l : LongRow, l ∈ survivors t ↔ l ∈ melt t ∧ keep l = true) ∧
    (∀ l ∈ melt t, l.country.isSome = true → l.features.isSome = true →
      l.region.isSome = true →
      (l ∈ survivors t ↔ l.value.isSome = true)) ∧
    (∀ N : NormTable, get_electricity_data t = .ok N →
      ∀ k ∈ N.keys, ∃ f, N.cell k.1 k.2.1 k.2.2 f ≠ none) := by
  refine ⟨fun l => List.mem_filter, fun l hl hc hf hr => ?_, fun N _ k hk => ?_⟩
  · constructor
    · intro hs
      have hk := (List.mem_filter.mp hs).2
      unfold keep at hk
      simp only [Bool.and_eq_true] at hk
      exact hk.2
    · intro hv
      refine List.mem_filter.mpr ⟨hl, ?_⟩
      unfold keep
      rw [hc, hf, hr, hv]
      rfl
  · have hk' : k ∈ N.rows.map fun r => (r.country, r.region, r.year) :=
      List.mem_dedup.mp hk
    obtain ⟨tr, htr, hke⟩ := List.mem_map.mp hk'
    refine ⟨tr.features, ?_⟩
    unfold NormTable.cell
    have hmem : tr ∈ N.rows.filter fun s =>
        s.country = k.1 && s.region = k.2.1 && s.year = k.2.2 &&
        s.features = tr.features := by
      refine List.mem_filter.mpr ⟨htr, ?_⟩
      rw [← hke]
      simp
    intro hnone
    rw [if_neg] at hnone
    · cases hnone
    · intro hemp
      rw [List.isEmpty_iff] at hemp
      have : TypedRow.value tr ∈ (N.rows.filter fun s =>
          s.country = k.1 && s.region = k.2.1 && s.year = k.2.2 &&
          s.features = tr.features).map TypedRow.value :=
        List.mem_map_of_mem _ hmem
      rw [hemp] at this
      cases this

set_option maxRecDepth 40000 in
/-- C7 witness: Chad's year-2000 long row has all identifiers present
and a missing value, and is indeed dropped from the concrete table's
survivors. -/
theorem dropna_semantics_witness :
    (⟨some "Chad", some "net consumption", some "Africa", 2000, none⟩ :
      LongRow) ∈ melt wTable ∧
    (⟨some "Chad", some "net consumption", some "Africa", 2000, none⟩ :
      LongRow) ∉ survivors wTable := by
  refine ⟨by with_unfolding_all decide, fun hmem => ?_⟩
  have h := ((dropna_semantics wTable).2.1 _ (by with_unfolding_all decide)
    (by decide) (by decide) (by decide)).mp hmem
  cases h

/-- C4: when the selection's start (or end) year has no pivot row at all
for the requested country — in particular for any year outside the
observed min/max range — the `.iat[0]` lookup raises a `LookupError`
(`IndexError`), which is distinguishable from every non-error outcome,
in particular from the `.ok none` returned for a present row whose
feature value is null. -/
theorem lookup_missing_row (N : NormTable) (lo hi : Nat) (c : String)
    (y : Nat) (f : String)
    (h : ∀ k ∈ N.keys, k.1 ≠ c ∨ k.2.2 ≠ y) :
    lookupCell N lo hi c y f = .error () ∧
      ∀ v : Option ℚ, lookupCell N lo hi c y f ≠ .ok v := by
  have hempty : (N.keys.filter fun k =>
      lo ≤ k.2.2 && k.2.2 ≤ hi && k.1 = c && k.2.2 = y) = [] := by
    rw [List.filter_eq_nil_iff]
    intro k hk
    rcases h k hk with hc | hy
    · simp [hc]
    · simp [hy]
  have : lookupCell N lo hi c y f = .error () := by
    unfold lookupCell
    split
    · rw [hempty]
      rfl
    · rfl
  exact ⟨this, fun v hv => by rw [this] at hv; cases hv⟩

/-- C4 witness: the year 2024 lies outside the observed range
(2000-2010) of the concrete table, so no key matches and the lookup is
the error outcome. -/
theorem lookup_missing_row_witness :
    (∀ k ∈ wNorm.keys, k.1 ≠ "France" ∨ k.2.2 ≠ 2024) ∧
    lookupCell wNorm 2000 2010 "France" 2024 "net consumption" =
      .error () := by
  refine ⟨by with_unfolding_all decide, ?_⟩
  exact (lookup_missing_row wNorm 2000 2010 "France" 2024 "net consumption"
    (by with_unfolding_all decide)).1

/-! ### Digit arithmetic lemmas (claim C9) -/

theorem toNat_digitChar {n : Nat} (h : n < 10) : (digitChar n).toNat = 48 + n := by
  interval_cases n <;> rfl

theorem isDigit_digitChar {n : Nat} (h : n < 10) : isDigit (digitChar n) = true := by
  interval_cases n <;> rfl

theorem digitsToNat_foldl (b : List Char) :
    ∀ acc : Nat, List.foldl (fun a c => 10 * a + (c.toNat - 48)) acc b =
      acc * 10 ^ b.length + digitsToNat b := by
  induction b with
  | nil => intro acc; simp [digitsToNat]
  | cons c bs ih =>
    intro acc
    show List.foldl _ (10 * acc + (c.toNat - 48)) bs = _
    rw [ih]
    have hrhs : digitsToNat (c :: bs) =
        (c.toNat - 48) * 10 ^ bs.length + digitsToNat bs := by
      show List.foldl _ (10 * 0 + (c.toNat - 48)) bs = _
      rw [ih]
      ring_nf
    rw [hrhs, List.length_cons, pow_succ]
    ring

theorem digitsToNat_append (a b : List Char) :
    digitsToNat (a ++ b) = digitsToNat a * 10 ^ b.length + digitsToNat b := by
  unfold digitsToNat
  rw [List.foldl_append]
  exact digitsToNat_foldl b _

theorem digitsToNat_single (c : Char) : digitsToNat [c] = c.toNat - 48 := by
  show 10 * 0 + (c.toNat - 48) = c.toNat - 48
  omega

theorem digitsToNat_natDigits (n : Nat) : digitsToNat (natDigits n) = n := by
  induction n using Nat.strong_induction_on with
  | _ n ih =>
    rw [natDigits]
    split
    case isTrue h =>
      rw [digitsToNat_single, toNat_digitChar h]
      omega
    case isFalse h =>
      rw [digitsToNat_append,
        ih (n / 10) (Nat.div_lt_self (by omega) (by omega)),
        digitsToNat_single, toNat_digitChar (Nat.mod_lt _ (by omega))]
      simp only [List.length_singleton, pow_one]
      omega

theorem allDigits_natDigits (n : Nat) : allDigits (natDigits n) = true := by
  induction n using Nat.strong_induction_on with
  | _ n ih =>
    rw [natDigits]
    split
    case isTrue h =>
      simp [allDigits, isDigit_digitChar h]
    case isFalse h =>
      unfold allDigits
      rw [List.all_append]
      have h1 := ih (n / 10) (Nat.div_lt_self (by omega) (by omega))
      unfold allDigits at h1
      rw [h1]
      simp [isDigit_digitChar (Nat.mod_lt _ (by omega))]

theorem natDigits_ne_nil (n : Nat) : natDigits n ≠ [] := by
  rw [natDigits]
  split
  · simp
  · simp

theorem natDigits_head_digit (n : Nat) :
    ∃ c rest, natDigits n = c :: rest ∧ isDigit c = true := by
  induction n using Nat.strong_induction_on with
  | _ n ih =>
    rw [natDigits]
    split
    case isTrue h => exact ⟨digitChar n, [], rfl, isDigit_digitChar h⟩
    case isFalse h =>
      obtain ⟨c, rest, he, hc⟩ :=
        ih (n / 10) (Nat.div_lt_self (by omega) (by omega))
      exact ⟨c, rest ++ [digitChar (n % 10)], by rw [he]; rfl, hc⟩

theorem natDigits_length_le (k : Nat) :
    ∀ n, n < 10 ^ k → 0 < k → (natDigits n).length ≤ k := by
  induction k with
  | zero => intro n _ h0; omega
  | succ k ih =>
    intro n hn _
    rw [natDigits]
    split
    case isTrue h => simp
    case isFalse h =>
      have hk : 0 < k := by
        rcases Nat.eq_zero_or_pos k with rfl | hk
        · simp at hn; omega
        · exact hk
      have hdiv : n / 10 < 10 ^ k := by
        rw [pow_succ] at hn
        omega
      have := ih (n / 10) hdiv hk
      rw [List.length_append]
      simp only [List.length_singleton]
      omega

theorem digitsToNat_cons (c : Char) (l : List Char) :
    digitsToNat (c :: l) =
      (c.toNat - 48) * 10 ^ l.length + digitsToNat l := by
  show List.foldl _ (10 * 0 + (c.toNat - 48)) l =
    (c.toNat - 48) * 10 ^ l.length + digitsToNat l
  rw [digitsToNat_foldl]
  norm_num

theorem digitsToNat_replicate (k : Nat) :
    digitsToNat (List.replicate k '0') = 0 := by
  induction k with
  | zero => rfl
  | succ k ih =>
    rw [List.replicate_succ, digitsToNat_cons, ih]
    have h0 : '0'.toNat - 48 = 0 := rfl
    rw [h0]
    ring

theorem allDigits_replicate (k : Nat) :
    allDigits (List.replicate k '0') = true := by
  unfold allDigits
  rw [List.all_eq_true]
  intro c hc
  rw [List.eq_of_mem_replicate hc]
  rfl

theorem digitsToNat_padDigits (k r : Nat) : digitsToNat (padDigits k r) = r := by
  unfold padDigits
  rw [digitsToNat_append, digitsToNat_replicate, digitsToNat_natDigits]
  omega

theorem padDigits_length {k r : Nat} (h : (natDigits r).length ≤ k) :
    (padDigits k r).length = k := by
  unfold padDigits
  rw [List.length_append, List.length_replicate]
  omega

theorem allDigits_padDigits (k r : Nat) : allDigits (padDigits k r) = true := by
  unfold padDigits allDigits
  rw [List.all_append]
  have h1 := allDigits_replicate (k - (natDigits r).length)
  have h2 := allDigits_natDigits r
  unfold allDigits at h1 h2
  rw [h1, h2]
  rfl

/-! ### Parsing the printed decimal back -/

theorem splitDot_no_dot (l : List Char) (h : '.' ∉ l) :
    splitDot l = (l, none) := by
  induction l with
  | nil => rfl
  | cons c rest ih =>
    unfold splitDot
    rw [if_neg (by intro he; exact h (he ▸ List.mem_cons_self _ _))]
    rw [ih (fun hm => h (List.mem_cons_of_mem _ hm))]

theorem splitDot_append (a b : List Char) (h : '.' ∉ a) :
    splitDot (a ++ '.' :: b) = (a, some b) := by
  induction a with
  | nil =>
    show splitDot ('.' :: b) = ([], some b)
    unfold splitDot
    rw [if_pos rfl]
  | cons c rest ih =>
    show splitDot (c :: (rest ++ '.' :: b)) = (c :: rest, some b)
    unfold splitDot
    rw [if_neg (by intro he; exact h (he ▸ List.mem_cons_self _ _))]
    rw [ih (fun hm => h (List.mem_cons_of_mem _ hm))]

theorem not_dot_of_allDigits {l : List Char} (h : allDigits l = true) :
    '.' ∉ l := by
  intro hm
  have := List.all_eq_true.mp h _ hm
  exact absurd this (by decide)

theorem pyIsSpace_of_isDigit {c : Char} (h : isDigit c = true) :
    pyIsSpace c = false := by
  unfold isDigit at h
  rw [Bool.and_eq_true, decide_eq_true_eq, decide_eq_true_eq] at h
  obtain ⟨h1, h2⟩ := h
  unfold pyIsSpace
  have e1 : c ≠ ' ' := by intro rfl_; subst rfl_; exact absurd h1 (by decide)
  have e2 : c ≠ '\t' := by intro rfl_; subst rfl_; exact absurd h1 (by decide)
  have e3 : c ≠ '\n' := by intro rfl_; subst rfl_; exact absurd h1 (by decide)
  have e4 : c ≠ '\r' := by intro rfl_; subst rfl_; exact absurd h1 (by decide)
  have e5 : c ≠ '\x0b' := by intro rfl_; subst rfl_; exact absurd h1 (by decide)
  have e6 : c ≠ '\x0c' := by intro rfl_; subst rfl_; exact absurd h1 (by decide)
  simp [e1, e2, e3, e4, e5, e6]

theorem dropWhile_eq_self_of {p : Char → Bool} {l : List Char}
    (h : ∀ c ∈ l, p c = false) : l.dropWhile p = l := by
  cases l with
  | nil => rfl
  | cons c rest =>
    rw [List.dropWhile_cons, h c (List.mem_cons_self _ _)]
    simp

theorem stripChars_eq_self {l : List Char}
    (h : ∀ c ∈ l, pyIsSpace c = false) : stripChars l = l := by
  unfold stripChars
  rw [dropWhile_eq_self_of h,
    dropWhile_eq_self_of (fun c hc => h c (List.mem_reverse.mp hc)),
    List.reverse_reverse]

theorem mem_printDecChars {n d : Nat} {c : Char}
    (h : c ∈ printDecChars n d) : isDigit c = true ∨ c = '.' := by
  simp only [printDecChars] at h
  split at h
  · exact Or.inl (List.all_eq_true.mp (allDigits_natDigits _) _ h)
  · rcases List.mem_append.mp h with h1 | h2
    · exact Or.inl (List.all_eq_true.mp (allDigits_natDigits _) _ h1)
    · rcases List.mem_cons.mp h2 with rfl | h3
      · exact Or.inr rfl
      · exact Or.inl (List.all_eq_true.mp (allDigits_padDigits _ _) _ h3)

theorem printDecChars_head (n d : Nat) :
    ∃ c rest, printDecChars n d = c :: rest ∧ isDigit c = true := by
  simp only [printDecChars]
  split
  · exact natDigits_head_digit _
  · obtain ⟨c, rest, he, hc⟩ := natDigits_head_digit
      (n * (10 ^ decExp d / d) / 10 ^ decExp d)
    refine ⟨c, rest ++ '.' :: padDigits (decExp d)
      (n * (10 ^ decExp d / d) % 10 ^ decExp d), ?_, hc⟩
    rw [he]
    rfl

theorem decExp_dvd {d : Nat} (h : d ∣ 10 ^ d) : d ∣ 10 ^ decExp d := by
  unfold decExp
  cases hf : (List.range (d + 1)).find? (fun k => decide (d ∣ 10 ^ k)) with
  | none =>
    exfalso
    have := List.find?_eq_none.mp hf d (List.mem_range.mpr (by omega))
    rw [decide_eq_true_eq] at this
    exact this h
  | some k =>
    have := List.find?_some hf
    rw [decide_eq_true_eq] at this
    simpa using this

theorem parseUnsigned_printDecChars (n d : Nat) (hd : 0 < d)
    (hdvd : d ∣ 10 ^ decExp d) :
    parseUnsigned (printDecChars n d) = some ((n : ℚ) / (d : ℚ)) := by
  have hmnat : n * (10 ^ decExp d / d) * d = n * 10 ^ decExp d := by
    rw [Nat.mul_assoc, Nat.div_mul_cancel hdvd]
  simp only [printDecChars]
  by_cases hk0 : decExp d = 0
  · rw [if_pos hk0]
    have hd1 : d = 1 := by
      rw [hk0] at hdvd
      simpa using hdvd
    simp only [parseUnsigned,
      splitDot_no_dot _ (not_dot_of_allDigits (allDigits_natDigits _))]
    rw [if_pos (by simp [natDigits_ne_nil, allDigits_natDigits])]
    rw [digitsToNat_natDigits]
    rw [hk0, hd1]
    norm_num
  · rw [if_neg hk0]
    simp only [parseUnsigned,
      splitDot_append _ _ (not_dot_of_allDigits (allDigits_natDigits _))]
    rw [if_pos (by simp [natDigits_ne_nil, allDigits_natDigits,
      allDigits_padDigits])]
    rw [digitsToNat_natDigits, digitsToNat_padDigits]
    have hlen : (padDigits (decExp d)
        (n * (10 ^ decExp d / d) % 10 ^ decExp d)).length = decExp d :=
      padDigits_length (natDigits_length_le _ _
        (Nat.mod_lt _ (Nat.pos_pow_of_pos _ (by omega))) (by omega))
    rw [hlen]
    refine congrArg some ?_
    have h10 : ((10 : ℚ) ^ decExp d) ≠ 0 := by positivity
    have hdq : ((d : ℚ)) ≠ 0 := by
      exact_mod_cast Nat.pos_iff_ne_zero.mp hd
    set k := decExp d
    set m := n * (10 ^ k / d) with hm
    have hsplit : (10 : ℚ) ^ k * ((m / 10 ^ k : Nat) : ℚ) +
        ((m % 10 ^ k : Nat) : ℚ) = (m : ℚ) := by
      exact_mod_cast congrArg (Nat.cast (R := ℚ)) (Nat.div_add_mod m (10 ^ k))
    have hval : ((m / 10 ^ k : Nat) : ℚ) + ((m % 10 ^ k : Nat) : ℚ) / 10 ^ k =
        (m : ℚ) / 10 ^ k := by
      field_simp
      linarith [hsplit]
    rw [hval]
    rw [div_eq_div_iff h10 hdq]
    exact_mod_cast congrArg (Nat.cast (R := ℚ)) hmnat

theorem printDec_no_space (q : ℚ) :
    ∀ c ∈ printDecChars q.num.natAbs q.den, pyIsSpace c = false := by
  intro c hc
  rcases mem_printDecChars hc with hdig | rfl
  · exact pyIsSpace_of_isDigit hdig
  · decide

theorem parseFloat_printDec {q : ℚ} (h : isDec q = true) :
    parseFloat (printDec q) = some q := by
  have hdvd : q.den ∣ 10 ^ decExp q.den := decExp_dvd (by
    unfold isDec at h
    exact of_decide_eq_true h)
  have hd : 0 < q.den := q.pos
  obtain ⟨c, rest, hcr, hcd⟩ := printDecChars_head q.num.natAbs q.den
  unfold printDec
  split
  case isTrue hneg =>
    unfold parseFloat
    have hstr : stripChars
        (String.data ⟨'-' :: printDecChars q.num.natAbs q.den⟩) =
        '-' :: printDecChars q.num.natAbs q.den := by
      apply stripChars_eq_self
      intro x hx
      rcases List.mem_cons.mp hx with rfl | hx2
      · decide
      · exact printDec_no_space q x hx2
    rw [hstr]
    show (parseUnsigned (printDecChars q.num.natAbs q.den)).map
      (fun v => -v) = some q
    rw [parseUnsigned_printDecChars _ _ hd hdvd]
    refine congrArg some ?_
    have hcast : ((q.num.natAbs : ℚ)) = -(q.num : ℚ) := by
      rw [Int.cast_natAbs, abs_of_neg hneg, Int.cast_neg]
    rw [hcast]
    show -(-(q.num : ℚ) / (q.den : ℚ)) = q
    rw [neg_div, neg_neg]
    exact Rat.num_div_den q
  case isFalse hpos =>
    unfold parseFloat
    have hstr : stripChars
        (String.data ⟨printDecChars q.num.natAbs q.den⟩) =
        printDecChars q.num.natAbs q.den :=
      stripChars_eq_self (printDec_no_space q)
    rw [hstr, hcr]
    have hc1 : c ≠ '-' := by
      intro he
      subst he
      exact absurd hcd (by decide)
    have hc2 : c ≠ '+' := by
      intro he
      subst he
      exact absurd hcd (by decide)
    split
    case h_1 r heq =>
      injection heq with hh _
      exact absurd hh hc1
    case h_2 r heq =>
      injection heq with hh _
      exact absurd hh hc2
    case h_3 l hne1 hne2 =>
      rw [← hcr, parseUnsigned_printDecChars _ _ hd hdvd]
      refine congrArg some ?_
      have hcast : ((q.num.natAbs : ℚ)) = (q.num : ℚ) := by
        rw [Int.cast_natAbs, abs_of_nonneg (not_lt.mp hpos)]
      rw [hcast]
      exact Rat.num_div_den q

theorem isSentinel_printDec (q : ℚ) : isSentinel (printDec q) = false := by
  obtain ⟨c, rest, hcr, hcd⟩ := printDecChars_head q.num.natAbs q.den
  have hc1 : c ≠ '-' := fun he => absurd (he ▸ hcd) (by decide)
  have hci : c ≠ 'i' := fun he => absurd (he ▸ hcd) (by decide)
  have key : ∀ s : String, s.data ≠ ['-', '-'] → s.data ≠ ['i', 'e'] →
      s.data ≠ [] → isSentinel s = false := by
    intro s h1 h2 h3
    have e1 : s ≠ "--" := fun he => h1 (congrArg String.data he)
    have e2 : s ≠ "ie" := fun he => h2 (congrArg String.data he)
    have e3 : s ≠ "" := fun he => h3 (congrArg String.data he)
    unfold isSentinel
    simp [e1, e2, e3]
  unfold printDec
  split
  · apply key <;> show ('-' :: printDecChars q.num.natAbs q.den) ≠ _ <;>
      rw [hcr] <;> intro he
    · injection he with h1 h2
      injection h2 with h3 _
      exact hc1 h3
    · injection he with h1 _
      exact absurd h1 (by decide)
    · cases he
  · apply key <;> show (printDecChars q.num.natAbs q.den) ≠ _ <;>
      rw [hcr] <;> intro he
    · injection he with h1 _
      exact hc1 h1
    · injection he with h1 _
      exact hci h1
    · cases he

theorem cleanCell_printDec (q : ℚ) :
    cleanCell (printDec q) = some (printDec q) := by
  unfold cleanCell
  rw [isSentinel_printDec]
  rfl

theorem strip_printDec (q : ℚ) : strip (printDec q) = printDec q := by
  unfold printDec strip
  split
  · show (⟨stripChars ('-' :: printDecChars q.num.natAbs q.den)⟩ : String) = _
    rw [stripChars_eq_self]
    intro x hx
    rcases List.mem_cons.mp hx with rfl | hx2
    · decide
    · exact printDec_no_space q x hx2
  · show (⟨stripChars (printDecChars q.num.natAbs q.den)⟩ : String) = _
    rw [stripChars_eq_self (printDec_no_space q)]

/-! ### Assembling the round trip -/

theorem flatMap_singleton_eq {α β : Type} [DecidableEq α] (l : List α)
    (g : α → List β) (a : α) (hnd : l.Nodup) (ha : a ∈ l)
    (hother : ∀ b ∈ l, b ≠ a → g b = []) : l.flatMap g = g a := by
  induction l with
  | nil => cases ha
  | cons x xs ih =>
    rw [List.flatMap_cons]
    rcases List.mem_cons.mp ha with rfl | hmem
    · have hxs : xs.flatMap g = [] := by
        rw [List.flatMap_eq_nil_iff]
        intro b hb
        exact hother b (List.mem_cons_of_mem _ hb)
          (fun he => (List.nodup_cons.mp hnd).1 (he ▸ hb))
      rw [hxs, List.append_nil]
    · have hx : g x = [] :=
        hother x (List.mem_cons_self _ _)
          (fun he => (List.nodup_cons.mp hnd).1 (he ▸ hmem))
      rw [hx, List.nil_append]
      exact ih (List.nodup_cons.mp hnd).2 hmem
        (fun b hb hne => hother b (List.mem_cons_of_mem _ hb) hne)

theorem coerce_append {l₁ l₂ : List LongRow} {t₁ t₂ : List TypedRow}
    (h1 : coerce l₁ = .ok t₁) (h2 : coerce l₂ = .ok t₂) :
    coerce (l₁ ++ l₂) = .ok (t₁ ++ t₂) := by
  induction l₁ generalizing t₁ with
  | nil =>
    cases h1
    simpa using h2
  | cons a rest ih =>
    unfold coerce at h1
    cases ha : typeRow a with
    | none => rw [ha] at h1; cases h1
    | some tr =>
      rw [ha] at h1
      cases hrest : coerce rest with
      | error e => rw [hrest] at h1; cases h1
      | ok trs =>
        rw [hrest] at h1
        cases h1
        rw [List.cons_append]
        show coerce (a :: (rest ++ l₂)) = _
        unfold coerce
        dsimp only
        rw [ha, ih hrest]
        rfl

theorem coerce_flatMap {α : Type} (l : List α) (g : α → List LongRow)
    (out : α → List TypedRow) (h : ∀ a ∈ l, coerce (g a) = .ok (out a)) :
    coerce (l.flatMap g) = .ok (l.flatMap out) := by
  induction l with
  | nil => rfl
  | cons x xs ih =>
    rw [List.flatMap_cons, List.flatMap_cons]
    exact coerce_append (h x (List.mem_cons_self _ _))
      (ih fun a ha => h a (List.mem_cons_of_mem _ ha))

/-- A non-null pivot cell is witnessed by a matching typed row. -/
theorem cell_some_mem {N : NormTable} {c r : String} {y : Nat} {f : String}
    {q : ℚ} (h : N.cell c r y f = some q) :
    ∃ tr ∈ N.rows, tr.country = c ∧ tr.region = r ∧ tr.year = y ∧
      tr.features = f := by
  unfold NormTable.cell at h
  by_cases he : ((N.rows.filter fun t =>
      t.country = c && t.region = r && t.year = y && t.features = f).map
      TypedRow.value).isEmpty = true
  · rw [if_pos he] at h
    cases h
  · have : (N.rows.filter fun t =>
        t.country = c && t.region = r && t.year = y &&
          t.features = f) ≠ [] := by
      intro hnil
      rw [hnil] at he
      exact he rfl
    obtain ⟨tr, htr⟩ := List.exists_mem_of_ne_nil _ this
    have hmem := (List.mem_filter.mp htr).1
    have hp := (List.mem_filter.mp htr).2
    simp only [Bool.and_eq_true, decide_eq_true_eq] at hp
    exact ⟨tr, hmem, hp.1.1.1, hp.1.1.2, hp.1.2, hp.2⟩

/-- Every typed row witnesses a non-null pivot cell at its own key. -/
theorem cell_mem_some {N : NormTable} {tr : TypedRow} (h : tr ∈ N.rows) :
    ∃ q, N.cell tr.country tr.region tr.year tr.features = some q := by
  unfold NormTable.cell
  have hmem : tr ∈ N.rows.filter fun t =>
      t.country = tr.country && t.region = tr.region &&
        t.year = tr.year && t.features = tr.features := by
    refine List.mem_filter.mpr ⟨h, ?_⟩
    simp
  have hne : (N.rows.filter fun t =>
      t.country = tr.country && t.region = tr.region &&
        t.year = tr.year && t.features = tr.features) ≠ [] := by
    intro hnil
    rw [hnil] at hmem
    cases hmem
  rw [if_neg]
  · exact ⟨_, rfl⟩
  · intro habs
    rw [List.isEmpty_iff] at habs
    exact hne (List.map_eq_nil_iff.mp habs)

/-- Decoding the Boolean key match. -/
theorem key_decide_true {a e b : String} {y y₀ : Nat} {c r f : String}
    (h : (decide (a = c) && decide (e = r) && decide (y = y₀) &&
      decide (b = f)) = true) :
    a = c ∧ e = r ∧ y = y₀ ∧ b = f := by
  simp only [Bool.and_eq_true, decide_eq_true_eq] at h
  exact ⟨h.1.1.1, h.1.1.2, h.1.2, h.2⟩

/-- The rows of the re-normalized table matching a full
(country, region, year, feature) key: exactly the one row printed from
the corresponding pivot cell, when it is non-null. -/
theorem widenRows_filter (N : NormTable) (c r : String) (y₀ : Nat)
    (f : String) :
    ((widenRows N).filter fun t =>
      t.country = c && t.region = r && t.year = y₀ && t.features = f) =
      ((N.cell c r y₀ f).map fun q =>
        (⟨c, f, r, y₀, q⟩ : TypedRow)).toList := by
  unfold widenRows
  simp only [List.filter_flatMap]
  cases hc : N.cell c r y₀ f with
  | some q0 =>
    obtain ⟨tr, htr, h1, h2, h3, h4⟩ := cell_some_mem hc
    have htri : ((c, f, r) : String × String × String) ∈
        (N.rows.map fun t => (t.country, t.features, t.region)).dedup :=
      List.mem_dedup.mpr (List.mem_map.mpr ⟨tr, htr, by rw [h1, h4, h2]⟩)
    have hy : y₀ ∈ (N.rows.map TypedRow.year).dedup :=
      List.mem_dedup.mpr (List.mem_map.mpr ⟨tr, htr, h3⟩)
    refine Eq.trans (flatMap_singleton_eq _ _
      ((c, f, r) : String × String × String)
      (List.nodup_dedup _) htri fun tri htri2 hne => ?_) ?_
    · rw [List.flatMap_eq_nil_iff]
      intro y hy2
      cases hcy : N.cell tri.1 tri.2.2 y tri.2.1 with
      | none => rfl
      | some q =>
        dsimp only [Option.map, Option.toList]
        rw [List.filter_cons, List.filter_nil]
        rw [if_neg]
        intro hP
        obtain ⟨e1, e2, _, e4⟩ := key_decide_true hP
        apply hne
        have htre : tri = (tri.1, tri.2.1, tri.2.2) := rfl
        have e1' : tri.1 = c := e1
        have e2' : tri.2.2 = r := e2
        have e4' : tri.2.1 = f := e4
        rw [htre, e1', e2', e4']
    · refine Eq.trans (flatMap_singleton_eq _ _ y₀
        (List.nodup_dedup _) hy fun y hy2 hne => ?_) ?_
      · cases hcy : N.cell (c, f, r).1 (c, f, r).2.2 y (c, f, r).2.1 with
        | none => rfl
        | some q =>
          dsimp only [Option.map, Option.toList]
          rw [List.filter_cons, List.filter_nil]
          rw [if_neg]
          intro hP
          obtain ⟨_, _, e3, _⟩ := key_decide_true hP
          exact hne e3
      · show List.filter _ ((N.cell (c, f, r).1 (c, f, r).2.2 y₀
          (c, f, r).2.1).map _).toList = _
        have hproj : N.cell (c, f, r).1 (c, f, r).2.2 y₀ (c, f, r).2.1 =
            some q0 := hc
        rw [hproj]
        dsimp only [Option.map, Option.toList]
        rw [List.filter_cons, List.filter_nil]
        rw [if_pos]
        simp
  | none =>
    dsimp only [Option.map, Option.toList]
    rw [List.flatMap_eq_nil_iff]
    intro tri htri2
    rw [List.flatMap_eq_nil_iff]
    intro y hy2
    cases hcy : N.cell tri.1 tri.2.2 y tri.2.1 with
    | none => rfl
    | some q =>
      dsimp only [Option.map, Option.toList]
      rw [List.filter_cons, List.filter_nil]
      rw [if_neg]
      intro hP
      obtain ⟨e1, e2, e3, e4⟩ := key_decide_true hP
      have e1' : tri.1 = c := e1
      have e2' : tri.2.2 = r := e2
      have e3' : y = y₀ := e3
      have e4' : tri.2.1 = f := e4
      rw [e1', e2', e3', e4'] at hcy
      rw [hcy] at hc
      cases hc

/-- Re-normalizing the widened table leaves every pivot cell unchanged. -/
theorem widenRows_cell (N : NormTable) (c r : String) (y : Nat)
    (f : String) :
    NormTable.cell ⟨widenRows N⟩ c r y f = N.cell c r y f := by
  cases hc : N.cell c r y f with
  | none =>
    unfold NormTable.cell
    dsimp only
    rw [widenRows_filter, hc]
    rfl
  | some q =>
    unfold NormTable.cell
    dsimp only
    rw [widenRows_filter, hc]
    dsimp only [Option.map, Option.toList]
    simp

/-- Re-normalizing the widened table preserves the key set. -/
theorem widenRows_keys (N : NormTable) (k : String × String × Nat) :
    k ∈ NormTable.keys ⟨widenRows N⟩ ↔ k ∈ N.keys := by
  unfold NormTable.keys
  rw [List.mem_dedup, List.mem_dedup]
  constructor
  · intro hk
    obtain ⟨w, hw, hkey⟩ := List.mem_map.mp hk
    obtain ⟨tri, htri, hw2⟩ := List.mem_flatMap.mp hw
    obtain ⟨y, hy, hw3⟩ := List.mem_flatMap.mp hw2
    cases hcy : N.cell tri.1 tri.2.2 y tri.2.1 with
    | none => rw [hcy] at hw3; cases hw3
    | some q =>
      rw [hcy] at hw3
      dsimp only [Option.map, Option.toList] at hw3
      have hw4 : w = ⟨tri.1, tri.2.1, tri.2.2, y, q⟩ := by
        simpa using hw3
      obtain ⟨tr, htr, a1, a2, a3, a4⟩ := cell_some_mem hcy
      refine List.mem_map.mpr ⟨tr, htr, ?_⟩
      rw [← hkey, hw4]
      show (tr.country, tr.region, tr.year) = (tri.1, tri.2.2, y)
      rw [a1, a2, a3]
  · intro hk
    obtain ⟨tr, htr, hkey⟩ := List.mem_map.mp hk
    obtain ⟨q, hq⟩ := cell_mem_some htr
    refine List.mem_map.mpr
      ⟨⟨tr.country, tr.features, tr.region, tr.year, q⟩, ?_, hkey⟩
    refine List.mem_flatMap.mpr ⟨(tr.country, tr.features, tr.region),
      List.mem_dedup.mpr (List.mem_map.mpr ⟨tr, htr, rfl⟩), ?_⟩
    refine List.mem_flatMap.mpr ⟨tr.year,
      List.mem_dedup.mpr (List.mem_map.mpr ⟨tr, htr, rfl⟩), ?_⟩
    have hq2 : N.cell (tr.country, tr.features, tr.region).1
        (tr.country, tr.features, tr.region).2.2 tr.year
        (tr.country, tr.features, tr.region).2.1 = some q := hq
    rw [hq2]
    dsimp only [Option.map, Option.toList]
    exact List.mem_singleton.mpr rfl

/-- Re-normalizing the widened table preserves the feature columns. -/
theorem widenRows_feats (N : NormTable) (f : String) :
    f ∈ NormTable.feats ⟨widenRows N⟩ ↔ f ∈ N.feats := by
  unfold NormTable.feats
  rw [List.mem_dedup, List.mem_dedup]
  constructor
  · intro hk
    obtain ⟨w, hw, hkey⟩ := List.mem_map.mp hk
    obtain ⟨tri, htri, hw2⟩ := List.mem_flatMap.mp hw
    obtain ⟨y, hy, hw3⟩ := List.mem_flatMap.mp hw2
    cases hcy : N.cell tri.1 tri.2.2 y tri.2.1 with
    | none => rw [hcy] at hw3; cases hw3
    | some q =>
      rw [hcy] at hw3
      dsimp only [Option.map, Option.toList] at hw3
      have hw4 : w = ⟨tri.1, tri.2.1, tri.2.2, y, q⟩ := by
        simpa using hw3
      obtain ⟨tr2, htr2, htup⟩ := List.mem_map.mp (List.mem_dedup.mp htri)
      refine List.mem_map.mpr ⟨tr2, htr2, ?_⟩
      have hf2 : tr2.features = tri.2.1 := by
        rw [← htup]
      rw [hf2, ← hkey, hw4]
  · intro hk
    obtain ⟨tr, htr, hkey⟩ := List.mem_map.mp hk
    obtain ⟨q, hq⟩ := cell_mem_some htr
    refine List.mem_map.mpr
      ⟨⟨tr.country, tr.features, tr.region, tr.year, q⟩, ?_, hkey⟩
    refine List.mem_flatMap.mpr ⟨(tr.country, tr.features, tr.region),
      List.mem_dedup.mpr (List.mem_map.mpr ⟨tr, htr, rfl⟩), ?_⟩
    refine List.mem_flatMap.mpr ⟨tr.year,
      List.mem_dedup.mpr (List.mem_map.mpr ⟨tr, htr, rfl⟩), ?_⟩
    have hq2 : N.cell (tr.country, tr.features, tr.region).1
        (tr.country, tr.features, tr.region).2.2 tr.year
        (tr.country, tr.features, tr.region).2.1 = some q := hq
    rw [hq2]
    dsimp only [Option.map, Option.toList]
    exact List.mem_singleton.mpr rfl

/-- The melt→pivot view of the widened table equals the original. -/
theorem widenRows_equiv (N : NormTable) : NormEquiv N ⟨widenRows N⟩ :=
  ⟨fun f => (widenRows_feats N f).symm,
   fun k => (widenRows_keys N k).symm,
   fun c r y f => (widenRows_cell N c r y f).symm⟩

/-- Coercing one widened raw row's surviving cells: each non-null pivot
cell parses back to itself. -/
theorem coerce_widen_segment (N : NormTable) (tri : String × String × String)
    (hns1 : isSentinel tri.1 = false) (hs1 : strip tri.1 = tri.1)
    (hns2 : isSentinel tri.2.1 = false) (hs2 : strip tri.2.1 = tri.2.1)
    (hns3 : isSentinel tri.2.2 = false) :
    ∀ ys : List Nat,
      (∀ y ∈ ys, (N.cell tri.1 tri.2.2 y tri.2.1).all isDec = true) →
      coerce ((ys.map fun y =>
        ({ country := (cleanCell tri.1).map strip
           features := (cleanCell tri.2.1).map strip
           region := cleanCell tri.2.2
           year := y
           value := cleanCell (match N.cell tri.1 tri.2.2 y tri.2.1 with
             | some q => printDec q
             | none => "--") } : LongRow)).filter keep) =
        .ok (ys.flatMap fun y =>
          ((N.cell tri.1 tri.2.2 y tri.2.1).map fun q =>
            (⟨tri.1, tri.2.1, tri.2.2, y, q⟩ : TypedRow)).toList) := by
  have hcc1 : (cleanCell tri.1).map strip = some tri.1 := by
    unfold cleanCell
    rw [hns1]
    show Option.map strip (some tri.1) = some tri.1
    rw [Option.map_some']
    rw [hs1]
  have hcc2 : (cleanCell tri.2.1).map strip = some tri.2.1 := by
    unfold cleanCell
    rw [hns2]
    show Option.map strip (some tri.2.1) = some tri.2.1
    rw [Option.map_some']
    rw [hs2]
  have hcc3 : cleanCell tri.2.2 = some tri.2.2 := by
    unfold cleanCell
    rw [hns3]
    rfl
  intro ys
  induction ys with
  | nil => intro _; rfl
  | cons y ys ih =>
    intro hys
    rw [List.map_cons, List.filter_cons]
    cases hcy : N.cell tri.1 tri.2.2 y tri.2.1 with
    | none =>
      rw [show (match (none : Option ℚ) with
        | some q => printDec q
        | none => "--") = "--" from rfl]
      have hkeep : keep
          ({ country := (cleanCell tri.1).map strip
             features := (cleanCell tri.2.1).map strip
             region := cleanCell tri.2.2
             year := y
             value := cleanCell "--" } : LongRow) = false := by
        unfold keep
        show (_ && _ && _ && (cleanCell "--").isSome) = false
        have hdd : cleanCell "--" = none := rfl
        rw [hdd]
        simp
      rw [hkeep]
      rw [List.flatMap_cons]
      simp only [hcy]
      show coerce _ = Except.ok ([] ++ _)
      rw [List.nil_append]
      exact ih fun y2 hy2 => hys y2 (List.mem_cons_of_mem _ hy2)
    | some q =>
      rw [show (match (some q : Option ℚ) with
        | some q => printDec q
        | none => "--") = printDec q from rfl]
      have hdq : isDec q = true := by
        have hh := hys y (List.mem_cons_self _ _)
        rw [hcy] at hh
        exact hh
      have hkeep : keep
          ({ country := (cleanCell tri.1).map strip
             features := (cleanCell tri.2.1).map strip
             region := cleanCell tri.2.2
             year := y
             value := cleanCell (printDec q) } : LongRow) = true := by
        unfold keep
        rw [cleanCell_printDec]
        show (((cleanCell tri.1).map strip).isSome &&
          ((cleanCell tri.2.1).map strip).isSome &&
          (cleanCell tri.2.2).isSome && (some (printDec q)).isSome) = true
        rw [hcc1, hcc2, hcc3]
        rfl
      rw [hkeep]
      rw [List.flatMap_cons]
      simp only [hcy]
      show coerce (_ :: _) = _
      unfold coerce
      have htype : typeRow
          ({ country := (cleanCell tri.1).map strip
             features := (cleanCell tri.2.1).map strip
             region := cleanCell tri.2.2
             year := y
             value := cleanCell (printDec q) } : LongRow) =
          some ⟨tri.1, tri.2.1, tri.2.2, y, q⟩ := by
        unfold typeRow
        rw [hcc1, hcc2, hcc3, cleanCell_printDec]
        dsimp only
        rw [parseFloat_printDec hdq]
        rfl
      rw [htype]
      rw [ih fun y2 hy2 => hys y2 (List.mem_cons_of_mem _ hy2)]
      rfl

/-- Loading the widened table succeeds and produces exactly the
re-normalized rows, provided the identifiers are sentinel-free and
trimmed and every cell is exactly decimal-representable. -/
theorem get_widen (N : NormTable)
    (hsent : ∀ tr ∈ N.rows, isSentinel tr.country = false ∧
      isSentinel tr.features = false ∧ isSentinel tr.region = false)
    (hstrip : ∀ tr ∈ N.rows, strip tr.country = tr.country ∧
      strip tr.features = tr.features)
    (hdec : ∀ tri ∈ (N.rows.map fun tr =>
        (tr.country, tr.features, tr.region)).dedup,
      ∀ y ∈ (N.rows.map TypedRow.year).dedup,
      (N.cell tri.1 tri.2.2 y tri.2.1).all isDec = true) :
    get_electricity_data (widen N) = .ok ⟨widenRows N⟩ := by
  have hmelt : survivors (widen N) =
      ((N.rows.map fun tr => (tr.country, tr.features, tr.region)).dedup).flatMap
        fun tri => (((N.rows.map TypedRow.year).dedup).map fun y =>
          ({ country := (cleanCell tri.1).map strip
             features := (cleanCell tri.2.1).map strip
             region := cleanCell tri.2.2
             year := y
             value := cleanCell (match N.cell tri.1 tri.2.2 y tri.2.1 with
               | some q => printDec q
               | none => "--") } : LongRow)).filter keep := by
    unfold survivors melt widen
    rw [List.flatMap_map, List.filter_flatMap]
    congr 1
    funext tri
    congr 1
    unfold meltRow
    dsimp only
    rw [List.map_map]
    rfl
  have hseg : ∀ tri ∈ (N.rows.map fun tr =>
      (tr.country, tr.features, tr.region)).dedup,
      coerce ((((N.rows.map TypedRow.year).dedup).map fun y =>
        ({ country := (cleanCell tri.1).map strip
           features := (cleanCell tri.2.1).map strip
           region := cleanCell tri.2.2
           year := y
           value := cleanCell (match N.cell tri.1 tri.2.2 y tri.2.1 with
             | some q => printDec q
             | none => "--") } : LongRow)).filter keep) =
        .ok (((N.rows.map TypedRow.year).dedup).flatMap fun y =>
          ((N.cell tri.1 tri.2.2 y tri.2.1).map fun q =>
            (⟨tri.1, tri.2.1, tri.2.2, y, q⟩ : TypedRow)).toList) := by
    intro tri htri
    obtain ⟨tr, htr, htup⟩ := List.mem_map.mp (List.mem_dedup.mp htri)
    have h1 := hsent tr htr
    have h2 := hstrip tr htr
    subst htup
    exact coerce_widen_segment N _ h1.1 h2.1 h1.2.1 h2.2 h1.2.2 _
      (fun y hy => hdec _ htri y hy)
  unfold get_electricity_data
  rw [hmelt, coerce_flatMap _ _ _ hseg]
  rfl

set_option maxRecDepth 40000 in
/-- C9 counterexample: a raw country `" -- "` strips to the dash token
only after sentinel replacement has already run, so it survives into
the normalized table; re-widening prints it back as a raw cell, where
the replacement now turns it into `NA` and the row is lost: the
round trip is not the identity on this normalized table. -/
theorem roundtrip_counterexample :
    ∃ N M, get_electricity_data tWiden = .ok N ∧
      get_electricity_data (widen N) = .ok M ∧ ¬ NormEquiv N M := by
  refine ⟨⟨[⟨"--", "f", "R", 2000, 5⟩]⟩, ⟨[]⟩, by with_unfolding_all decide,
    by with_unfolding_all decide, ?_⟩
  intro h
  have h2 := (h.2.1 ("--", "R", 2000)).mp (by with_unfolding_all decide)
  exact absurd h2 (by with_unfolding_all decide)

/-- C9 amended: for a normalized table whose identifier strings are
whitespace-trimmed and not sentinel tokens (every normalizer output is
trimmed; the counterexample shows the sentinel condition is needed)
and whose cells are exactly representable as finite decimals (true of
the code's binary floats printed exactly), re-widening to the
one-column-per-year format and normalizing again reproduces the table:
same feature columns, same `(Country, Region, Year)` index, same cell
values — the melt→pivot reshape loses nothing. -/
theorem melt_pivot_roundtrip (N : NormTable)
    (hsent : ∀ tr ∈ N.rows, isSentinel tr.country = false ∧
      isSentinel tr.features = false ∧ isSentinel tr.region = false)
    (hstrip : ∀ tr ∈ N.rows, strip tr.country = tr.country ∧
      strip tr.features = tr.features)
    (hdec : ∀ tri ∈ (N.rows.map fun tr =>
        (tr.country, tr.features, tr.region)).dedup,
      ∀ y ∈ (N.rows.map TypedRow.year).dedup,
      (N.cell tri.1 tri.2.2 y tri.2.1).all isDec = true) :
    ∃ M, get_electricity_data (widen N) = .ok M ∧ NormEquiv N M :=
  ⟨⟨widenRows N⟩, get_widen N hsent hstrip hdec, widenRows_equiv N⟩

set_option maxRecDepth 100000 in
/-- C9 witness: the concrete normalized table round-trips. -/
theorem melt_pivot_roundtrip_witness :
    (∀ tr ∈ wNorm.rows, isSentinel tr.country = false ∧
      isSentinel tr.features = false ∧ isSentinel tr.region = false) ∧
    (∃ M, get_electricity_data (widen wNorm) = .ok M ∧
      NormEquiv wNorm M) := by
  refine ⟨by with_unfolding_all decide, ?_⟩
  exact melt_pivot_roundtrip wNorm (by with_unfolding_all decide)
    (by with_unfolding_all decide) (by with_unfolding_all decide)
